import Mathlib

/-!
Verification development for the `ferienplanung` load-profile remapping tool.

The definitions below are a shallow embedding of the Python sources
`holiday_fetcher_improved.py` and `load_profile_processor.py`:

* calendar arithmetic mirrors `datetime.date` (proleptic Gregorian calendar,
  `weekday()` with Monday = 0, `isocalendar()[1]` ISO-8601 week numbers,
  `timetuple().tm_yday` day-of-year);
* `gaussEaster` mirrors `HolidayFetcher._calculate_easter` (Python integer
  floor division and nonnegative modulus, hence `Int.fdiv`/`Int.fmod`);
* the categorizer, corpus builder and per-category selection logic mirror
  `HolidayFetcher.categorize_date`, `LoadProfileProcessor.chunk_by_days`,
  `LoadProfileProcessor.categorize_days` and
  `LoadProfileProcessor.map_to_future_year` branch by branch.
-/

/-- A calendar date, mirroring Python `datetime.date` (proleptic Gregorian). -/
structure Date where
  year : Nat
  month : Nat
  day : Nat
deriving DecidableEq, Repr

/-- Lexicographic `<=` on dates, the order used by Python date comparison. -/
def dateLeB (a b : Date) : Bool :=
  if a.year ≠ b.year then a.year < b.year
  else if a.month ≠ b.month then a.month < b.month
  else a.day ≤ b.day

/-- Lexicographic `<` on dates. -/
def dateLtB (a b : Date) : Bool :=
  if a.year ≠ b.year then a.year < b.year
  else if a.month ≠ b.month then a.month < b.month
  else a.day < b.day

/-- Gregorian leap-year predicate, as in `calendar.isleap`. -/
def isLeap (y : Nat) : Bool :=
  (y % 4 = 0 && y % 100 ≠ 0) || y % 400 = 0

/-- Number of days of month `m` in year `y`. -/
def daysInMonth (y m : Nat) : Nat :=
  match m with
  | 1 => 31 | 2 => if isLeap y then 29 else 28 | 3 => 31
  | 4 => 30 | 5 => 31 | 6 => 30
  | 7 => 31 | 8 => 31 | 9 => 30
  | 10 => 31 | 11 => 30 | 12 => 31
  | _ => 31

/-- Days in year `y` strictly before month `m`. -/
def daysBeforeMonth (y m : Nat) : Nat :=
  (match m with
  | 1 => 0 | 2 => 31 | 3 => 59 | 4 => 90 | 5 => 120 | 6 => 151
  | 7 => 181 | 8 => 212 | 9 => 243 | 10 => 273 | 11 => 304 | 12 => 334
  | _ => 0)
  + (if isLeap y && m ≥ 3 then 1 else 0)

/-- `timetuple().tm_yday`: 1-based ordinal of the date within its year. -/
def dayOfYear (d : Date) : Nat :=
  daysBeforeMonth d.year d.month + d.day

/-- Days strictly before January 1 of year `y` counted from 0001-01-01
(Python `date.toordinal` counts 0001-01-01 as ordinal 1). -/
def daysBeforeYear (y : Nat) : Nat :=
  365 * (y - 1) + ((y - 1) / 4 - (y - 1) / 100) + (y - 1) / 400

/-- Python `date.toordinal`. -/
def toOrdinal (d : Date) : Nat :=
  daysBeforeYear d.year + dayOfYear d

/-- Python `date.weekday()`: Monday = 0 … Sunday = 6. -/
def weekday (d : Date) : Nat :=
  (toOrdinal d + 6) % 7

/-- Successor date (one calendar day later). -/
def nextDay (d : Date) : Date :=
  if d.day < daysInMonth d.year d.month then ⟨d.year, d.month, d.day + 1⟩
  else if d.month < 12 then ⟨d.year, d.month + 1, 1⟩
  else ⟨d.year + 1, 1, 1⟩

/-- Predecessor date (one calendar day earlier). -/
def prevDay (d : Date) : Date :=
  if 2 ≤ d.day then ⟨d.year, d.month, d.day - 1⟩
  else if 2 ≤ d.month then ⟨d.year, d.month - 1, daysInMonth d.year (d.month - 1)⟩
  else ⟨d.year - 1, 12, 31⟩

/-- `d + k` days, mirroring `date + timedelta(days=k)`. -/
def addDays (d : Date) (k : Nat) : Date :=
  match k with
  | 0 => d
  | k + 1 => nextDay (addDays d k)

/-- `d - k` days, mirroring `date - timedelta(days=k)`. -/
def subDays (d : Date) (k : Nat) : Date :=
  match k with
  | 0 => d
  | k + 1 => prevDay (subDays d k)

/-- The Thursday of the ISO week containing `d`. -/
def isoThursday (d : Date) : Date :=
  if weekday d ≤ 3 then addDays d (3 - weekday d) else subDays d (weekday d - 3)

/-- Python `date.isocalendar()[1]`: the ISO-8601 week number of `d`. -/
def isoWeek (d : Date) : Nat :=
  let t := isoThursday d
  (toOrdinal t - toOrdinal ⟨t.year, 1, 1⟩) / 7 + 1

/-- Zero-padded two-digit rendering of a month or day number. -/
def pad2 (n : Nat) : String :=
  if n < 10 then "0" ++ toString n else toString n

/-- `str(d)` for a Python date: `YYYY-MM-DD`. -/
def dateToString (d : Date) : String :=
  toString d.year ++ "-" ++ pad2 d.month ++ "-" ++ pad2 d.day

/-- `HolidayFetcher._calculate_easter`: Gauss's Easter algorithm, with
Python `//`/`%` semantics (`Int.fdiv`/`Int.fmod`; every divisor is positive). -/
def gaussEaster (year : Nat) : Date :=
  let y : Int := year
  let a := y.fmod 19
  let b := y.fdiv 100
  let c := y.fmod 100
  let d := b.fdiv 4
  let e := b.fmod 4
  let f := (b + 8).fdiv 25
  let g := (b - f + 1).fdiv 3
  let h := (19 * a + b - d - g + 15).fmod 30
  let i := c.fdiv 4
  let k := c.fmod 4
  let l := (32 + 2 * e + 2 * i - h - k).fmod 7
  let m := (a + 11 * h + 22 * l).fdiv 451
  let n := (h + l - 7 * m + 114).fdiv 31
  let p := (h + l - 7 * m + 114).fmod 31
  ⟨year, n.toNat, p.toNat + 1⟩

/-- `a` occurs as a contiguous run inside `b`. -/
def listIsInfixOf (a : List Char) : List Char → Bool
  | [] => a.isEmpty
  | c :: t => a.isPrefixOf (c :: t) || listIsInfixOf a t

/-- Python `a in b` on strings: `a` occurs as a contiguous substring of `b`. -/
def isSubstrOf (a b : String) : Bool :=
  listIsInfixOf a.data b.data

/-- Python `str.lower` on the labels at hand (their only non-ASCII letters,
such as `ü`, are already lower case, so ASCII lowering matches Python). -/
def strLower (s : String) : String :=
  ⟨s.data.map Char.toLower⟩

/-- Python `str.strip()`: drop whitespace from both ends. -/
def strTrim (s : String) : String :=
  ⟨((s.data.dropWhile Char.isWhitespace).reverse.dropWhile Char.isWhitespace).reverse⟩

/-- Python `str.replace(pat, repl)` on char lists: replace every
non-overlapping occurrence of `pat`, scanning left to right. -/
def replaceL (pat repl : List Char) : List Char → List Char
  | [] => []
  | c :: t =>
    if pat ≠ [] ∧ pat.isPrefixOf (c :: t) then
      repl ++ replaceL pat repl (t.drop (pat.length - 1))
    else
      c :: replaceL pat repl t
  termination_by l => l.length
  decreasing_by
    · simp
      omega
    · simp

/-- Python `str.replace` on strings. -/
def strReplace (s pat repl : String) : String :=
  ⟨replaceL pat.data repl.data s.data⟩

/-- Split a char list on every space character. -/
def splitSp : List Char → List (List Char)
  | [] => [[]]
  | c :: t =>
    let r := splitSp t
    if c = ' ' then [] :: r
    else
      match r with
      | [] => [[c]]
      | w :: ws => (c :: w) :: ws

/-- The `state_names` mapping of `HolidayFetcher._normalize_holiday_name`. -/
def stateNames : List (String × String) :=
  [("BW", "baden-württemberg"), ("BY", "bayern"), ("BE", "berlin"),
   ("BB", "brandenburg"), ("HB", "bremen"), ("HH", "hamburg"),
   ("HE", "hessen"), ("MV", "mecklenburg-vorpommern"), ("NI", "niedersachsen"),
   ("NW", "nordrhein-westfalen"), ("RP", "rheinland-pfalz"), ("SL", "saarland"),
   ("SN", "sachsen"), ("ST", "sachsen-anhalt"), ("SH", "schleswig-holstein"),
   ("TH", "thüringen")]

/-- `HolidayFetcher._normalize_holiday_name(name, year)` for federal state
`state`: lower-cases the name and ensures the state name and the year are
embedded in the label (it never strips a year that is already present). -/
def normalizeHolidayName (state name : String) (year : Nat) : String :=
  let nameLower := strLower name
  let stateName := (stateNames.lookup state).getD (strLower state)
  let hasState := isSubstrOf stateName nameLower
  let hasYear := isSubstrOf (toString year) name
  if !hasState && !hasYear then
    nameLower ++ " " ++ stateName ++ " " ++ toString year
  else if !hasState then
    strTrim ((strReplace nameLower (toString year) "") ++ " " ++ stateName ++ " " ++ toString year)
  else if !hasYear then
    nameLower ++ " " ++ toString year
  else
    nameLower

/-- `HolidayFetcher._get_fallback_holidays`: fixed-date holidays in Python
dict insertion order, then the Easter-relative holidays. -/
def fallbackPublicHolidays (year : Nat) : List (String × Date) :=
  let easter := gaussEaster year
  [("Neujahr", ⟨year, 1, 1⟩),
   ("Tag der Arbeit", ⟨year, 5, 1⟩),
   ("Tag der Deutschen Einheit", ⟨year, 10, 3⟩),
   ("Weihnachten", ⟨year, 12, 25⟩),
   ("2. Weihnachtstag", ⟨year, 12, 26⟩),
   ("Karfreitag", subDays easter 2),
   ("Ostersonntag", easter),
   ("Ostermontag", addDays easter 1),
   ("Christi Himmelfahrt", addDays easter 39),
   ("Pfingstmontag", addDays easter 50)]

/-- `HolidayFetcher._get_typical_school_holidays`: the built-in fallback
school-holiday windows for one year, as `(start, end, name)` triples. -/
def fallbackSchoolHolidays (state : String) (year : Nat) : List (Date × Date × String) :=
  let easter := gaussEaster year
  let winter := (⟨year, 2, 10⟩, ⟨year, 2, 24⟩, normalizeHolidayName state "Winterferien" year)
  let oster := (subDays easter 7, addDays easter 7, normalizeHolidayName state "Osterferien" year)
  let pfingst := (addDays easter 49, addDays easter 56, normalizeHolidayName state "Pfingstferien" year)
  let sommerName := normalizeHolidayName state "Sommerferien" year
  let sommer :=
    if state = "BY" ∨ state = "BW" then (⟨year, 7, 25⟩, ⟨year, 9, 7⟩, sommerName)
    else (⟨year, 7, 1⟩, ⟨year, 8, 15⟩, sommerName)
  let herbst := (⟨year, 10, 14⟩, ⟨year, 10, 25⟩, normalizeHolidayName state "Herbstferien" year)
  let weihName := normalizeHolidayName state "Weihnachtsferien" year
  let weih := (⟨year, 12, 23⟩, ⟨year, 12, 31⟩, weihName)
  [winter, oster, pfingst, sommer, herbst, weih]
    ++ (if year < 2100 then [(⟨year + 1, 1, 1⟩, ⟨year + 1, 1, 6⟩, weihName)] else [])

/-- `HolidayFetcher.get_public_holidays`: the external fetch is modelled by an
`Except` parameter; a raised exception is caught (yielding no holidays) and an
empty result is replaced by the built-in fallback calendar. -/
def getPublicHolidays (fetched : Except String (List (String × Date))) (year : Nat) :
    List (String × Date) :=
  let holidays := match fetched with
    | .ok hs => hs
    | .error _ => []
  if holidays.isEmpty then fallbackPublicHolidays year else holidays

/-- `HolidayFetcher.get_school_holidays`, with the fetch modelled as in
`getPublicHolidays`. -/
def getSchoolHolidays (state : String) (fetched : Except String (List (Date × Date × String)))
    (year : Nat) : List (Date × Date × String) :=
  let holidays := match fetched with
    | .ok hs => hs
    | .error _ => []
  if holidays.isEmpty then fallbackSchoolHolidays state year else holidays

/-- `HolidayFetcher.categorize_date`: public holidays first, then school
holiday intervals, then weekends, else a normal day. -/
def categorize (pubs : List (String × Date)) (schools : List (Date × Date × String))
    (d : Date) : String × String :=
  match pubs.find? (fun p => d = p.2) with
  | some p => ("public_holiday", p.1)
  | none =>
    match schools.find? (fun si => dateLeB si.1 d && dateLeB d si.2.1) with
    | some si => ("school_holiday", si.2.2)
    | none =>
      if weekday d = 5 ∨ weekday d = 6 then
        ("weekend", "KW" ++ toString (isoWeek d))
      else
        ("normal", "Normal day")

/-- `INTERVALS_PER_DAY` from `config.py`. -/
def INTERVALS_PER_DAY : Nat := 96

/-- `INTERVAL_MINUTES` from `config.py`. -/
def INTERVAL_MINUTES : Nat := 15

/-- A timestamp at 15-minute resolution: a date plus minutes past midnight. -/
abbrev Timestamp := Date × Nat

/-- One parsed `{timestamp, load}` sample (loads are modelled as integers). -/
abbrev Row := Timestamp × Int

/-- A daily chunk: the rows of one calendar day, as kept by `chunk_by_days`. -/
abbrev Chunk := List Row

/-- One corpus entry `(src_date, chunk, description)` as stored in the
per-category lists built by `categorize_days`. -/
abbrev SrcEntry := Date × Chunk × String

/-- `<=` on dates as a decidable proposition, for sorting. -/
def dateLe (a b : Date) : Prop := dateLeB a b = true

instance : DecidableRel dateLe := fun a b => by unfold dateLe; infer_instance

/-- `LoadProfileProcessor.chunk_by_days`: group the rows by calendar date
(pandas `groupby` iterates dates in ascending order) and keep a day exactly
when its group has `INTERVALS_PER_DAY` rows. -/
def chunkByDays (rows : List Row) : List (Date × Chunk) :=
  (List.insertionSort dateLe ((rows.map fun r => r.1.1).dedup)).filterMap
    (fun d =>
      let g := rows.filter (fun r => r.1.1 = d)
      if g.length = INTERVALS_PER_DAY then some (d, g) else none)

/-- The four per-category corpus buckets built by `categorize_days`. -/
structure Categorized where
  publicHoliday : List SrcEntry
  schoolHoliday : List SrcEntry
  weekend : List SrcEntry
  normal : List SrcEntry
deriving Repr

/-- `LoadProfileProcessor.categorize_days`: classify each kept day with its
own year's calendar and append it to the bucket of its category. -/
def categorizeDays (pubsOf : Nat → List (String × Date))
    (schoolsOf : Nat → List (Date × Date × String))
    (chunks : List (Date × Chunk)) : Categorized :=
  chunks.foldl
    (fun acc dc =>
      let cd := categorize (pubsOf dc.1.year) (schoolsOf dc.1.year) dc.1
      if cd.1 = "public_holiday" then
        { acc with publicHoliday := acc.publicHoliday ++ [(dc.1, dc.2, cd.2)] }
      else if cd.1 = "school_holiday" then
        { acc with schoolHoliday := acc.schoolHoliday ++ [(dc.1, dc.2, cd.2)] }
      else if cd.1 = "weekend" then
        { acc with weekend := acc.weekend ++ [(dc.1, dc.2, cd.2)] }
      else
        { acc with normal := acc.normal ++ [(dc.1, dc.2, cd.2)] })
    ⟨[], [], [], []⟩

/-- The `public_holiday` branch of `map_to_future_year`: first source day with
exactly the target's description, else the first public-holiday day. -/
def publicSelect (bucket : List SrcEntry) (description : String) :
    Option (Chunk × String) :=
  match bucket.find? (fun e => e.2.2 = description) with
  | some e => some (e.2.1, "Holiday: " ++ description ++ " from " ++ dateToString e.1)
  | none =>
    match bucket with
    | [] => none
    | e :: _ => some (e.2.1, "Holiday: " ++ e.2.2 ++ " from " ++ dateToString e.1)

/-- The containment test of the `school_holiday` branch:
`src_desc.lower() in description.lower() or description.lower() in src_desc.lower()`. -/
def schoolMatchB (srcDesc description : String) : Bool :=
  isSubstrOf (strLower srcDesc) (strLower description) ||
    isSubstrOf (strLower description) (strLower srcDesc)

/-- The `school_holiday` branch of `map_to_future_year`: first source day whose
lower-cased label contains (or is contained in) the target's label, else the
first school-holiday day. -/
def schoolSelect (bucket : List SrcEntry) (description : String) :
    Option (Chunk × String) :=
  match bucket.find? (fun e => schoolMatchB e.2.2 description) with
  | some e => some (e.2.1, "School holiday: " ++ e.2.2 ++ " from " ++ dateToString e.1)
  | none =>
    match bucket with
    | [] => none
    | e :: _ => some (e.2.1, "School holiday: " ++ e.2.2 ++ " from " ++ dateToString e.1)

/-- The `weekend` branch of `map_to_future_year`: first source day whose label
contains the substring `KW<week>`, else the day at index
`week mod len(bucket)`. -/
def weekendSelect (bucket : List SrcEntry) (weekNum : Nat) :
    Option (Chunk × String) :=
  match bucket.find? (fun e => isSubstrOf ("KW" ++ toString weekNum) e.2.2) with
  | some e => some (e.2.1, "Weekend " ++ e.2.2 ++ " from " ++ dateToString e.1)
  | none =>
    match bucket with
    | [] => none
    | _ :: _ =>
      let e := bucket.getD (weekNum % bucket.length) (⟨0, 0, 0⟩, [], "")
      some (e.2.1, "Weekend " ++ e.2.2 ++ " from " ++ dateToString e.1)

/-- The scan of the `normal` branch of `map_to_future_year`: keep the first
source day of the target's weekday whose day-of-year difference is strictly
smaller than the best so far (`acc = none` plays the role of `inf`). -/
def normalGo (tDoy tDow : Nat) :
    List SrcEntry → Option (Date × Chunk × Nat) → Option (Date × Chunk × Nat)
  | [], acc => acc
  | e :: rest, acc =>
    if weekday e.1 = tDow then
      let diff := ((dayOfYear e.1 : Int) - (tDoy : Int)).natAbs
      match acc with
      | none => normalGo tDoy tDow rest (some (e.1, e.2.1, diff))
      | some best =>
        if diff < best.2.2 then normalGo tDoy tDow rest (some (e.1, e.2.1, diff))
        else normalGo tDoy tDow rest acc
    else normalGo tDoy tDow rest acc

/-- The `normal` branch of `map_to_future_year`: the best same-weekday match
by day-of-year distance, or `none` when the weekday never occurs. -/
def normalSelect (bucket : List SrcEntry) (tDoy tDow : Nat) : Option (Date × Chunk) :=
  (normalGo tDoy tDow bucket none).map (fun b => (b.1, b.2.1))

/-- One output record: timestamp, load and the `source` provenance string
(the code emits no further fields). -/
structure Record where
  ts : Timestamp
  load : Int
  source : String
deriving DecidableEq, Repr

/-- Stamp a chosen chunk onto a target date: emit `INTERVALS_PER_DAY` records
15 minutes apart from 00:00, reading sample `i mod len(chunk)`. -/
def stampDay (d : Date) (chunk : Chunk) (info : String) : List Record :=
  (List.range INTERVALS_PER_DAY).map
    (fun i => ⟨(d, i * INTERVAL_MINUTES), (chunk.getD (i % chunk.length) ((⟨0, 0, 0⟩, 0), 0)).2, info⟩)

/-- The body of the `while` loop of `map_to_future_year` for one target date:
categorize it, run the selection policy of its category, and stamp the chosen
chunk (emitting nothing when no selection is made). -/
def mapDate (pubs : List (String × Date)) (schools : List (Date × Date × String))
    (cat : Categorized) (d : Date) : List Record :=
  let cd := categorize pubs schools d
  if cd.1 = "public_holiday" then
    match publicSelect cat.publicHoliday cd.2 with
    | some ci => stampDay d ci.1 ci.2
    | none => []
  else if cd.1 = "school_holiday" then
    match schoolSelect cat.schoolHoliday cd.2 with
    | some ci => stampDay d ci.1 ci.2
    | none => []
  else if cd.1 = "weekend" then
    match weekendSelect cat.weekend (isoWeek d) with
    | some ci => stampDay d ci.1 ci.2
    | none => []
  else
    match normalSelect cat.normal (dayOfYear d) (weekday d) with
    | some sc => stampDay d sc.2 ("Normal day from " ++ dateToString sc.1)
    | none => []

/-- Number of days of year `y`. -/
def daysInYear (y : Nat) : Nat := if isLeap y then 366 else 365

/-- The target dates Jan 1 .. Dec 31 of year `y`, in ascending order. -/
def datesOfYear (y : Nat) : List Date :=
  (List.range (daysInYear y)).map (addDays ⟨y, 1, 1⟩)

/-- `LoadProfileProcessor.map_to_future_year`: remap every date of the target
year, concatenating the per-date records. -/
def mapToFutureYear (pubs : List (String × Date)) (schools : List (Date × Date × String))
    (cat : Categorized) (y : Nat) : List Record :=
  (datesOfYear y).foldr (fun d acc => mapDate pubs schools cat d ++ acc) []

/-- Modelled from the spec: the two-tier Label model's type-key builder
(§3/§4.1) is absent from the source — the code matches full display labels —
so the key is built here following the spec's words: drop the 4-digit year
token and the region token, lower-case and trim. -/
def typeKeySpec (region label : String) : String :=
  let ws := (splitSp (strLower label).data).filter
    (fun w => !(w.length = 4 && w.all Char.isDigit) && w ≠ region.data)
  strTrim ⟨List.intercalate [' '] ws⟩

/-! ### Basic facts about the date order -/

theorem dateLtB_iff (a b : Date) :
    dateLtB a b = true ↔
      (a.year < b.year ∨ (a.year = b.year ∧ a.month < b.month) ∨
        (a.year = b.year ∧ a.month = b.month ∧ a.day < b.day)) := by
  unfold dateLtB
  split_ifs <;> simp <;> omega

theorem dateLeB_iff (a b : Date) :
    dateLeB a b = true ↔
      (a.year < b.year ∨ (a.year = b.year ∧ a.month < b.month) ∨
        (a.year = b.year ∧ a.month = b.month ∧ a.day ≤ b.day)) := by
  unfold dateLeB
  split_ifs <;> simp <;> omega

theorem dateLtB_le {a b : Date} (h : dateLtB a b = true) : dateLeB a b = true := by
  rw [dateLtB_iff] at h
  rw [dateLeB_iff]
  omega

theorem dateLeB_refl (a : Date) : dateLeB a a = true := by
  rw [dateLeB_iff]
  omega

theorem dateLtB_trans {a b c : Date} (h1 : dateLtB a b = true) (h2 : dateLtB b c = true) :
    dateLtB a c = true := by
  rw [dateLtB_iff] at h1 h2 ⊢
  omega

/-! ### Concrete corpora used as inputs of the defect evaluations -/

/-- A school-holiday corpus holding a winter-holiday day (first) and an
Easter-holiday day, labelled as `categorize_days` labels days of 2024. -/
def c1Bucket : List SrcEntry :=
  [(⟨2024, 2, 12⟩, [((⟨2024, 2, 12⟩, 0), 700)], "winterferien baden-württemberg 2024"),
   (⟨2024, 4, 1⟩, [((⟨2024, 4, 1⟩, 0), 900)], "osterferien baden-württemberg 2024")]

/-- A 12-day Easter-holiday source block (2024-03-25 … 2024-04-05) whose
per-day loads 1000, 1100, …, 2100 are pairwise distinct. -/
def c2Bucket : List SrcEntry :=
  (List.range 12).map
    (fun k =>
      (addDays ⟨2024, 3, 25⟩ k,
       List.replicate 96 ((⟨2024, 3, 25⟩, (0 : Nat)), (1000 + 100 * (k : Int))),
       "osterferien baden-württemberg 2024"))

/-- C1. The claim says the school-holiday branch matches by type-key equality.
The code (lines 106–117) instead compares full lower-cased display labels by
containment: for the target label `osterferien baden-württemberg 2026` the
corpus holds a day of equal type key (`osterferien`), yet the remapper falls
back to the first school-holiday day, whose type key is `winterferien`. -/
theorem schoolSelect_ignores_type_key :
    (∃ e ∈ c1Bucket,
      typeKeySpec "baden-württemberg" e.2.2 =
        typeKeySpec "baden-württemberg" "osterferien baden-württemberg 2026")
    ∧ schoolSelect c1Bucket "osterferien baden-württemberg 2026" =
        some ([((⟨2024, 2, 12⟩, 0), 700)],
          "School holiday: winterferien baden-württemberg 2024 from 2024-02-12")
    ∧ typeKeySpec "baden-württemberg" "winterferien baden-württemberg 2024" ≠
        typeKeySpec "baden-württemberg" "osterferien baden-württemberg 2026" := by
  decide

/-- C3. The claim says label normalization strips the 4-digit year, making
type keys year-invariant. `_normalize_holiday_name` (lines 170–213) never
strips: a label already carrying state and year is returned unchanged, so the
normalized labels of the same holiday type in 2024 and 2026 differ and still
contain their years. -/
theorem normalize_holiday_name_keeps_year :
    normalizeHolidayName "BW" "osterferien baden-württemberg 2024" 2024 =
      "osterferien baden-württemberg 2024"
    ∧ normalizeHolidayName "BW" "osterferien baden-württemberg 2026" 2026 =
      "osterferien baden-württemberg 2026"
    ∧ normalizeHolidayName "BW" "osterferien baden-württemberg 2024" 2024 ≠
      normalizeHolidayName "BW" "osterferien baden-württemberg 2026" 2026
    ∧ isSubstrOf "2024"
        (normalizeHolidayName "BW" "osterferien baden-württemberg 2024" 2024) = true := by
  decide

/-- C2. The claim says the k-th day of a target school-holiday block draws
bucket element `k mod bucket_size`, so 3 target days over a 12-day distinct
source block show ≥ 2 distinct loads. The code has no block-offset logic:
all three target days of the 2026 Easter block map to the corpus-first day
(load 1000), a single distinct value. -/
theorem school_block_maps_single_day :
    (c2Bucket.map (fun e => (e.2.1.headD ((⟨0, 0, 0⟩, 0), 0)).2)).dedup.length = 12
    ∧ (mapDate (fallbackPublicHolidays 2026) (fallbackSchoolHolidays "BW" 2026)
        ⟨[], c2Bucket, [], []⟩ ⟨2026, 3, 30⟩).map Record.load = List.replicate 96 1000
    ∧ (mapDate (fallbackPublicHolidays 2026) (fallbackSchoolHolidays "BW" 2026)
        ⟨[], c2Bucket, [], []⟩ ⟨2026, 3, 31⟩).map Record.load = List.replicate 96 1000
    ∧ (mapDate (fallbackPublicHolidays 2026) (fallbackSchoolHolidays "BW" 2026)
        ⟨[], c2Bucket, [], []⟩ ⟨2026, 4, 1⟩).map Record.load = List.replicate 96 1000 := by
  set_option maxRecDepth 8000 in decide

/-- C9. `get_public_holidays`/`get_school_holidays` are total: a fetch error
is absorbed, and an error or empty payload is deterministically replaced by
the built-in fallback calendar (fixed-date plus Gauss-Easter-relative
holidays, typical school windows), which is itself always non-empty. -/
theorem getHolidays_never_fail (f : Except String (List (String × Date)))
    (g : Except String (List (Date × Date × String))) (state : String) (y : Nat) :
    getPublicHolidays f y ≠ []
    ∧ getSchoolHolidays state g y ≠ []
    ∧ (∀ msg, f = .error msg → getPublicHolidays f y = fallbackPublicHolidays y)
    ∧ (f = .ok [] → getPublicHolidays f y = fallbackPublicHolidays y)
    ∧ (∀ hs, f = .ok hs → hs ≠ [] → getPublicHolidays f y = hs)
    ∧ (∀ msg, g = .error msg → getSchoolHolidays state g y = fallbackSchoolHolidays state y)
    ∧ (g = .ok [] → getSchoolHolidays state g y = fallbackSchoolHolidays state y)
    ∧ (∀ hs, g = .ok hs → hs ≠ [] → getSchoolHolidays state g y = hs)
    ∧ ("Neujahr", (⟨y, 1, 1⟩ : Date)) ∈ fallbackPublicHolidays y
    ∧ ("Ostersonntag", gaussEaster y) ∈ fallbackPublicHolidays y := by
  refine ⟨?_, ?_, ?_, ?_, ?_, ?_, ?_, ?_, ?_, ?_⟩
  · cases f with
    | ok hs =>
      cases hs with
      | nil => simp [getPublicHolidays, fallbackPublicHolidays]
      | cons a t => simp [getPublicHolidays]
    | error msg => simp [getPublicHolidays, fallbackPublicHolidays]
  · cases g with
    | ok hs =>
      cases hs with
      | nil =>
        simp only [getSchoolHolidays, List.isEmpty_nil, if_true]
        simp [fallbackSchoolHolidays]
      | cons a t => simp [getSchoolHolidays]
    | error msg =>
      simp only [getSchoolHolidays, List.isEmpty_nil, if_true]
      simp [fallbackSchoolHolidays]
  · intro msg hf; subst hf; simp [getPublicHolidays]
  · intro hf; subst hf; simp [getPublicHolidays]
  · intro hs hf hne; subst hf; simp [getPublicHolidays, List.isEmpty_iff, hne]
  · intro msg hg; subst hg; simp [getSchoolHolidays]
  · intro hg; subst hg; simp [getSchoolHolidays]
  · intro hs hg hne; subst hg; simp [getSchoolHolidays, List.isEmpty_iff, hne]
  · simp [fallbackPublicHolidays]
  · simp [fallbackPublicHolidays]

/-- Witness for C9 at a failed fetch: the fallback calendar is substituted
and is non-empty. -/
theorem getHolidays_never_fail_witness :
    getPublicHolidays (.error "timeout") 2026 = fallbackPublicHolidays 2026
    ∧ getSchoolHolidays "BW" (.error "timeout") 2026 ≠ [] :=
  ⟨(getHolidays_never_fail (.error "timeout") (.error "timeout") "BW" 2026).2.2.1 "timeout" rfl,
   (getHolidays_never_fail (.error "timeout") (.error "timeout") "BW" 2026).2.1⟩

/-- C4. `categorize_date` is total with the fixed precedence: its category is
always one of the four, and a date that appears among the public holidays is
`public_holiday` no matter whether it also lies in a school-holiday interval
or on a weekend. -/
theorem categorize_four_categories_precedence (pubs : List (String × Date))
    (schools : List (Date × Date × String)) (d : Date) :
    ((categorize pubs schools d).1 = "public_holiday"
      ∨ (categorize pubs schools d).1 = "school_holiday"
      ∨ (categorize pubs schools d).1 = "weekend"
      ∨ (categorize pubs schools d).1 = "normal")
    ∧ ((∃ n, (n, d) ∈ pubs) → (categorize pubs schools d).1 = "public_holiday") := by
  unfold categorize
  constructor
  · rcases hfind : pubs.find? (fun p => d = p.2) with _ | p
    · rcases hsch : schools.find? (fun si => dateLeB si.1 d && dateLeB d si.2.1) with _ | si
      · by_cases hw : weekday d = 5 ∨ weekday d = 6
        · simp [hfind, hsch, hw]
        · simp [hfind, hsch, hw]
      · simp [hfind, hsch]
    · simp [hfind]
  · rintro ⟨n, hmem⟩
    rcases hfind : pubs.find? (fun p => d = p.2) with _ | p
    · exfalso
      have hall := List.find?_eq_none.mp hfind (n, d) hmem
      simp at hall
    · simp [hfind]

/-- Witness for C4: 2026-01-03 is a Saturday lying inside a school-holiday
interval, yet listing it as a public holiday makes it `public_holiday`. -/
theorem categorize_four_categories_precedence_witness :
    weekday ⟨2026, 1, 3⟩ = 5
    ∧ (dateLeB ⟨2026, 1, 1⟩ ⟨2026, 1, 3⟩ && dateLeB ⟨2026, 1, 3⟩ ⟨2026, 1, 6⟩) = true
    ∧ (categorize [("Dreikönigstag", ⟨2026, 1, 3⟩)]
        [(⟨2026, 1, 1⟩, ⟨2026, 1, 6⟩, "winterferien")] ⟨2026, 1, 3⟩).1 = "public_holiday" :=
  ⟨by decide, by decide,
   (categorize_four_categories_precedence [("Dreikönigstag", ⟨2026, 1, 3⟩)]
      [(⟨2026, 1, 1⟩, ⟨2026, 1, 6⟩, "winterferien")] ⟨2026, 1, 3⟩).2
     ⟨"Dreikönigstag", by decide⟩⟩

/-! ### The completeness gate of the corpus builder (C7) -/

/-- All entries of the four corpus buckets, concatenated. -/
def bucketsOf (c : Categorized) : List SrcEntry :=
  c.publicHoliday ++ c.schoolHoliday ++ c.weekend ++ c.normal

/-- The loop body of `categorize_days`. -/
def categorizeStep (pubsOf : Nat → List (String × Date))
    (schoolsOf : Nat → List (Date × Date × String))
    (acc : Categorized) (dc : Date × Chunk) : Categorized :=
  let cd := categorize (pubsOf dc.1.year) (schoolsOf dc.1.year) dc.1
  if cd.1 = "public_holiday" then
    { acc with publicHoliday := acc.publicHoliday ++ [(dc.1, dc.2, cd.2)] }
  else if cd.1 = "school_holiday" then
    { acc with schoolHoliday := acc.schoolHoliday ++ [(dc.1, dc.2, cd.2)] }
  else if cd.1 = "weekend" then
    { acc with weekend := acc.weekend ++ [(dc.1, dc.2, cd.2)] }
  else
    { acc with normal := acc.normal ++ [(dc.1, dc.2, cd.2)] }

theorem mem_bucketsOf_categorizeStep {pubsOf schoolsOf acc dc e}
    (h : e ∈ bucketsOf (categorizeStep pubsOf schoolsOf acc dc)) :
    e ∈ bucketsOf acc
      ∨ e = (dc.1, dc.2, (categorize (pubsOf dc.1.year) (schoolsOf dc.1.year) dc.1).2) := by
  simp only [categorizeStep] at h
  split_ifs at h <;>
    · simp only [bucketsOf, List.mem_append, List.mem_singleton] at h ⊢
      tauto

theorem mem_bucketsOf_fold {pubsOf schoolsOf} :
    ∀ (chunks : List (Date × Chunk)) (acc : Categorized) (e : SrcEntry),
      e ∈ bucketsOf (chunks.foldl (categorizeStep pubsOf schoolsOf) acc) →
      e ∈ bucketsOf acc ∨ ∃ dg ∈ chunks, e.2.1 = dg.2
  | [], _, _, h => Or.inl h
  | dc :: rest, acc, e, h => by
    rcases mem_bucketsOf_fold rest (categorizeStep pubsOf schoolsOf acc dc) e h with h1 | h1
    · rcases mem_bucketsOf_categorizeStep h1 with h2 | h2
      · exact Or.inl h2
      · exact Or.inr ⟨dc, List.mem_cons_self dc rest, by rw [h2]⟩
    · rcases h1 with ⟨dg, hdg, hek⟩
      exact Or.inr ⟨dg, List.mem_cons_of_mem dc hdg, hek⟩

/-- C7. A source day enters the corpus iff its group holds exactly 96 rows
(fewer or more are dropped, never repaired), and every profile held in any of
the four corpus buckets has exactly 96 samples. -/
theorem chunkByDays_completeness_gate (rows : List Row) (d : Date)
    (pubsOf : Nat → List (String × Date)) (schoolsOf : Nat → List (Date × Date × String)) :
    ((∃ g, (d, g) ∈ chunkByDays rows) ↔
      (rows.filter (fun r => r.1.1 = d)).length = INTERVALS_PER_DAY)
    ∧ (∀ dg ∈ chunkByDays rows, dg.2.length = INTERVALS_PER_DAY)
    ∧ (∀ e ∈ bucketsOf (categorizeDays pubsOf schoolsOf (chunkByDays rows)),
        e.2.1.length = INTERVALS_PER_DAY) := by
  have hlen : ∀ dg ∈ chunkByDays rows, dg.2.length = INTERVALS_PER_DAY := by
    intro dg hdg
    rcases List.mem_filterMap.mp hdg with ⟨d1, _, hsome⟩
    dsimp only at hsome
    split_ifs at hsome with h96
    cases hsome
    exact h96
  refine ⟨⟨?_, ?_⟩, hlen, ?_⟩
  · rintro ⟨g, hg⟩
    rcases List.mem_filterMap.mp hg with ⟨d1, _, hsome⟩
    dsimp only at hsome
    split_ifs at hsome with h96
    cases hsome
    exact h96
  · intro h96
    have hpos : 0 < (rows.filter (fun r => r.1.1 = d)).length := by
      rw [h96]; decide
    rcases List.exists_mem_of_length_pos hpos with ⟨r, hr⟩
    have hrd := List.mem_filter.mp hr
    have hmap : d ∈ rows.map (fun r => r.1.1) := by
      rcases hrd with ⟨hrmem, hrd⟩
      simp only [decide_eq_true_eq] at hrd
      exact hrd ▸ List.mem_map_of_mem _ hrmem
    refine ⟨rows.filter (fun r => r.1.1 = d), List.mem_filterMap.mpr ⟨d, ?_, by simp [h96]⟩⟩
    exact (List.mem_insertionSort dateLe).mpr (List.mem_dedup.mpr hmap)
  · intro e he
    rcases mem_bucketsOf_fold (chunkByDays rows) ⟨[], [], [], []⟩ e he with h | ⟨dg, hdg, hek⟩
    · simp [bucketsOf] at h
    · rw [hek]
      exact hlen dg hdg

/-- A complete 96-row day used as the witness input of C7. -/
def rows96 : List Row :=
  (List.range 96).map (fun i => ((⟨2024, 7, 29⟩, i * 15), (1000 + (i : Int))))

/-- Witness for C7: a day with exactly 96 rows enters the corpus. -/
theorem chunkByDays_completeness_gate_witness :
    (rows96.filter (fun r => r.1.1 = (⟨2024, 7, 29⟩ : Date))).length = INTERVALS_PER_DAY
    ∧ ∃ g, ((⟨2024, 7, 29⟩ : Date), g) ∈ chunkByDays rows96 :=
  ⟨by decide,
   (chunkByDays_completeness_gate rows96 ⟨2024, 7, 29⟩ (fun _ => []) (fun _ => [])).1.mpr
     (by decide)⟩

/-! ### The normal-day scan (C5) -/

theorem normalGo_some_of_acc_some (tDoy tDow : Nat) :
    ∀ (l : List SrcEntry) (b0 : Date × Chunk × Nat),
      ∃ b2, normalGo tDoy tDow l (some b0) = some b2
  | [], b0 => ⟨b0, rfl⟩
  | e :: rest, b0 => by
    by_cases hw : weekday e.1 = tDow
    · simp only [normalGo, if_pos hw]
      by_cases hlt : ((dayOfYear e.1 : Int) - (tDoy : Int)).natAbs < b0.2.2
      · rw [if_pos hlt]
        exact normalGo_some_of_acc_some tDoy tDow rest _
      · rw [if_neg hlt]
        exact normalGo_some_of_acc_some tDoy tDow rest b0
    · simp only [normalGo, if_neg hw]
      exact normalGo_some_of_acc_some tDoy tDow rest b0

theorem normalGo_none_iff (tDoy tDow : Nat) :
    ∀ l : List SrcEntry,
      (normalGo tDoy tDow l none = none ↔ ∀ e ∈ l, weekday e.1 ≠ tDow)
  | [] => by simp [normalGo]
  | e :: rest => by
    by_cases hw : weekday e.1 = tDow
    · simp only [normalGo, if_pos hw]
      rcases normalGo_some_of_acc_some tDoy tDow rest
        (e.1, e.2.1, ((dayOfYear e.1 : Int) - (tDoy : Int)).natAbs) with ⟨b2, hb2⟩
      rw [hb2]
      constructor
      · intro h; cases h
      · intro h
        exact absurd hw (h e (List.mem_cons_self e rest))
    · simp only [normalGo, if_neg hw]
      rw [normalGo_none_iff tDoy tDow rest]
      constructor
      · intro h x hx
        rcases List.mem_cons.mp hx with rfl | hx'
        · exact hw
        · exact h x hx'
      · intro h x hx
        exact h x (List.mem_cons_of_mem e hx)

theorem normalGo_spec (tDoy tDow : Nat) :
    ∀ (l : List SrcEntry) (acc : Option (Date × Chunk × Nat)) (b : Date × Chunk × Nat),
      (∀ b0, acc = some b0 →
        weekday b0.1 = tDow ∧ b0.2.2 = ((dayOfYear b0.1 : Int) - (tDoy : Int)).natAbs) →
      normalGo tDoy tDow l acc = some b →
      (weekday b.1 = tDow ∧ b.2.2 = ((dayOfYear b.1 : Int) - (tDoy : Int)).natAbs)
      ∧ (acc = some b ∨
          ∃ ds, (b.1, b.2.1, ds) ∈ l ∧ ∀ b0, acc = some b0 → b.2.2 < b0.2.2)
      ∧ (∀ e ∈ l, weekday e.1 = tDow →
          b.2.2 ≤ ((dayOfYear e.1 : Int) - (tDoy : Int)).natAbs)
      ∧ (∀ b0, acc = some b0 → b.2.2 ≤ b0.2.2)
  | [], acc, b => by
    intro hacc hrun
    simp only [normalGo] at hrun
    refine ⟨hacc b hrun, Or.inl hrun, by simp, ?_⟩
    intro b0 h0
    rw [hrun] at h0
    cases h0
    exact le_refl _
  | e :: rest, acc, b => by
    intro hacc hrun
    by_cases hw : weekday e.1 = tDow
    · rcases acc with _ | b0
      · simp only [normalGo, if_pos hw] at hrun
        have hacc2 : ∀ b0, some (e.1, e.2.1, ((dayOfYear e.1 : Int) - (tDoy : Int)).natAbs) = some b0 →
            weekday b0.1 = tDow ∧ b0.2.2 = ((dayOfYear b0.1 : Int) - (tDoy : Int)).natAbs := by
          rintro b0 hb0
          cases hb0
          exact ⟨hw, rfl⟩
        obtain ⟨h1, h2, h3, h4⟩ := normalGo_spec tDoy tDow rest _ b hacc2 hrun
        refine ⟨h1, ?_, ?_, ?_⟩
        · rcases h2 with h2 | ⟨ds, hmem, _⟩
          · cases h2
            exact Or.inr ⟨e.2.2, List.mem_cons_self e rest, by rintro b0 h; cases h⟩
          · exact Or.inr ⟨ds, List.mem_cons_of_mem e hmem, by rintro b0 h; cases h⟩
        · intro x hx hwx
          rcases List.mem_cons.mp hx with rfl | hx'
          · exact h4 _ rfl
          · exact h3 x hx' hwx
        · rintro b0 h; cases h
      · by_cases hlt : ((dayOfYear e.1 : Int) - (tDoy : Int)).natAbs < b0.2.2
        · simp only [normalGo, if_pos hw, if_pos hlt] at hrun
          have hacc2 : ∀ b1, some (e.1, e.2.1, ((dayOfYear e.1 : Int) - (tDoy : Int)).natAbs) = some b1 →
              weekday b1.1 = tDow ∧ b1.2.2 = ((dayOfYear b1.1 : Int) - (tDoy : Int)).natAbs := by
            rintro b1 hb1
            cases hb1
            exact ⟨hw, rfl⟩
          obtain ⟨h1, h2, h3, h4⟩ := normalGo_spec tDoy tDow rest _ b hacc2 hrun
          have hble : b.2.2 ≤ ((dayOfYear e.1 : Int) - (tDoy : Int)).natAbs := h4 _ rfl
          refine ⟨h1, ?_, ?_, ?_⟩
          · rcases h2 with h2 | ⟨ds, hmem, hcond⟩
            · cases h2
              refine Or.inr ⟨e.2.2, List.mem_cons_self e rest, ?_⟩
              rintro b1 hb1
              cases hb1
              exact hlt
            · refine Or.inr ⟨ds, List.mem_cons_of_mem e hmem, ?_⟩
              rintro b1 hb1
              cases hb1
              exact lt_trans (hcond _ rfl) hlt
          · intro x hx hwx
            rcases List.mem_cons.mp hx with rfl | hx'
            · exact hble
            · exact h3 x hx' hwx
          · rintro b1 hb1
            cases hb1
            omega
        · simp only [normalGo, if_pos hw, if_neg hlt] at hrun
          obtain ⟨h1, h2, h3, h4⟩ := normalGo_spec tDoy tDow rest _ b hacc hrun
          refine ⟨h1, ?_, ?_, h4⟩
          · rcases h2 with h2 | ⟨ds, hmem, hcond⟩
            · exact Or.inl h2
            · exact Or.inr ⟨ds, List.mem_cons_of_mem e hmem, hcond⟩
          · intro x hx hwx
            rcases List.mem_cons.mp hx with rfl | hx'
            · have := h4 b0 rfl
              omega
            · exact h3 x hx' hwx
    · simp only [normalGo, if_neg hw] at hrun
      obtain ⟨h1, h2, h3, h4⟩ := normalGo_spec tDoy tDow rest _ b hacc hrun
      refine ⟨h1, ?_, ?_, h4⟩
      · rcases h2 with h2 | ⟨ds, hmem, hcond⟩
        · exact Or.inl h2
        · exact Or.inr ⟨ds, List.mem_cons_of_mem e hmem, hcond⟩
      · intro x hx hwx
        rcases List.mem_cons.mp hx with rfl | hx'
        · exact absurd hwx hw
        · exact h3 x hx' hwx

theorem normalGo_tie (tDoy tDow : Nat) :
    ∀ (l : List SrcEntry) (acc : Option (Date × Chunk × Nat)) (b : Date × Chunk × Nat),
      (∀ b0, acc = some b0 →
        weekday b0.1 = tDow ∧ b0.2.2 = ((dayOfYear b0.1 : Int) - (tDoy : Int)).natAbs ∧
          ∀ e ∈ l, dateLtB b0.1 e.1 = true) →
      l.Pairwise (fun a b => dateLtB a.1 b.1 = true) →
      normalGo tDoy tDow l acc = some b →
      ∀ e ∈ l, weekday e.1 = tDow →
        ((dayOfYear e.1 : Int) - (tDoy : Int)).natAbs = b.2.2 → dateLeB b.1 e.1 = true
  | [], acc, b => by
    intro _ _ _ e he
    cases he
  | e :: rest, acc, b => by
    intro hacc hpair hrun x hx hwx htie
    have hall : ∀ z ∈ rest, dateLtB e.1 z.1 = true := (List.pairwise_cons.mp hpair).1
    have hprest : rest.Pairwise (fun a b => dateLtB a.1 b.1 = true) :=
      (List.pairwise_cons.mp hpair).2
    by_cases hw : weekday e.1 = tDow
    · rcases acc with _ | b0
      · simp only [normalGo, if_pos hw] at hrun
        have hacc2 : ∀ b1,
            some (e.1, e.2.1, ((dayOfYear e.1 : Int) - (tDoy : Int)).natAbs) = some b1 →
            weekday b1.1 = tDow ∧ b1.2.2 = ((dayOfYear b1.1 : Int) - (tDoy : Int)).natAbs := by
          rintro b1 hb1; cases hb1; exact ⟨hw, rfl⟩
        have hacc3 : ∀ b1,
            some (e.1, e.2.1, ((dayOfYear e.1 : Int) - (tDoy : Int)).natAbs) = some b1 →
            weekday b1.1 = tDow ∧ b1.2.2 = ((dayOfYear b1.1 : Int) - (tDoy : Int)).natAbs ∧
              ∀ z ∈ rest, dateLtB b1.1 z.1 = true := by
          rintro b1 hb1; cases hb1; exact ⟨hw, rfl, hall⟩
        rcases List.mem_cons.mp hx with rfl | hx'
        · obtain ⟨_, h2, _, h4⟩ := normalGo_spec tDoy tDow rest _ b hacc2 hrun
          rcases h2 with h2 | ⟨ds, _, hcond⟩
          · cases h2
            exact dateLeB_refl _
          · have hlt2 := hcond _ rfl
            dsimp only at hlt2
            omega
        · exact normalGo_tie tDoy tDow rest _ b hacc3 hprest hrun x hx' hwx htie
      · by_cases hlt : ((dayOfYear e.1 : Int) - (tDoy : Int)).natAbs < b0.2.2
        · simp only [normalGo, if_pos hw, if_pos hlt] at hrun
          have hacc2 : ∀ b1,
              some (e.1, e.2.1, ((dayOfYear e.1 : Int) - (tDoy : Int)).natAbs) = some b1 →
              weekday b1.1 = tDow ∧ b1.2.2 = ((dayOfYear b1.1 : Int) - (tDoy : Int)).natAbs := by
            rintro b1 hb1; cases hb1; exact ⟨hw, rfl⟩
          have hacc3 : ∀ b1,
              some (e.1, e.2.1, ((dayOfYear e.1 : Int) - (tDoy : Int)).natAbs) = some b1 →
              weekday b1.1 = tDow ∧ b1.2.2 = ((dayOfYear b1.1 : Int) - (tDoy : Int)).natAbs ∧
                ∀ z ∈ rest, dateLtB b1.1 z.1 = true := by
            rintro b1 hb1; cases hb1; exact ⟨hw, rfl, hall⟩
          rcases List.mem_cons.mp hx with rfl | hx'
          · obtain ⟨_, h2, _, h4⟩ := normalGo_spec tDoy tDow rest _ b hacc2 hrun
            rcases h2 with h2 | ⟨ds, _, hcond⟩
            · cases h2
              exact dateLeB_refl _
            · have hlt2 := hcond _ rfl
              dsimp only at hlt2
              omega
          · exact normalGo_tie tDoy tDow rest _ b hacc3 hprest hrun x hx' hwx htie
        · simp only [normalGo, if_pos hw, if_neg hlt] at hrun
          have hacc2 : ∀ b1, some b0 = some b1 →
              weekday b1.1 = tDow ∧ b1.2.2 = ((dayOfYear b1.1 : Int) - (tDoy : Int)).natAbs := by
            rintro b1 hb1; cases hb1
            exact ⟨(hacc b0 rfl).1, (hacc b0 rfl).2.1⟩
          have hacc3 : ∀ b1, some b0 = some b1 →
              weekday b1.1 = tDow ∧ b1.2.2 = ((dayOfYear b1.1 : Int) - (tDoy : Int)).natAbs ∧
                ∀ z ∈ rest, dateLtB b1.1 z.1 = true := by
            rintro b1 hb1; cases hb1
            exact ⟨(hacc b0 rfl).1, (hacc b0 rfl).2.1,
              fun z hz => (hacc b0 rfl).2.2 z (List.mem_cons_of_mem e hz)⟩
          rcases List.mem_cons.mp hx with rfl | hx'
          · obtain ⟨_, h2, _, h4⟩ := normalGo_spec tDoy tDow rest _ b hacc2 hrun
            rcases h2 with h2 | ⟨ds, _, hcond⟩
            · cases h2
              exact dateLtB_le ((hacc b rfl).2.2 x (List.mem_cons_self x rest))
            · have h5 := hcond b0 rfl
              have h6 := h4 b0 rfl
              omega
          · exact normalGo_tie tDoy tDow rest _ b hacc3 hprest hrun x hx' hwx htie
    · simp only [normalGo, if_neg hw] at hrun
      have hacc3 : ∀ b1, acc = some b1 →
          weekday b1.1 = tDow ∧ b1.2.2 = ((dayOfYear b1.1 : Int) - (tDoy : Int)).natAbs ∧
            ∀ z ∈ rest, dateLtB b1.1 z.1 = true := by
        rintro b1 hb1
        exact ⟨(hacc b1 hb1).1, (hacc b1 hb1).2.1,
          fun z hz => (hacc b1 hb1).2.2 z (List.mem_cons_of_mem e hz)⟩
      rcases List.mem_cons.mp hx with rfl | hx'
      · exact absurd hwx hw
      · exact normalGo_tie tDoy tDow rest _ b hacc3 hprest hrun x hx' hwx htie

theorem mem_stampDay_ts {d : Date} {c : Chunk} {i : String} {r : Record}
    (h : r ∈ stampDay d c i) : r.ts.1 = d := by
  simp only [stampDay, List.mem_map, List.mem_range] at h
  rcases h with ⟨j, _, rfl⟩
  rfl

theorem mem_mapDate_ts {pubs : List (String × Date)} {schools : List (Date × Date × String)}
    {cat : Categorized} {d : Date} {r : Record} (h : r ∈ mapDate pubs schools cat d) :
    r.ts.1 = d := by
  simp only [mapDate] at h
  split_ifs at h
  · rcases hsel : publicSelect cat.publicHoliday (categorize pubs schools d).2 with _ | ci <;>
      rw [hsel] at h
    · cases h
    · exact mem_stampDay_ts h
  · rcases hsel : schoolSelect cat.schoolHoliday (categorize pubs schools d).2 with _ | ci <;>
      rw [hsel] at h
    · cases h
    · exact mem_stampDay_ts h
  · rcases hsel : weekendSelect cat.weekend (isoWeek d) with _ | ci <;> rw [hsel] at h
    · cases h
    · exact mem_stampDay_ts h
  · rcases hsel : normalSelect cat.normal (dayOfYear d) (weekday d) with _ | sc <;>
      rw [hsel] at h
    · cases h
    · exact mem_stampDay_ts h

theorem mapDate_normal_gap {pubs : List (String × Date)} {schools : List (Date × Date × String)}
    {cat : Categorized} {d : Date}
    (hcat : (categorize pubs schools d).1 = "normal")
    (hnone : normalSelect cat.normal (dayOfYear d) (weekday d) = none) :
    mapDate pubs schools cat d = [] := by
  simp only [mapDate, hcat]
  rw [if_neg (by decide), if_neg (by decide), if_neg (by decide), hnone]

theorem filter_foldr_mapDate_nil {pubs : List (String × Date)}
    {schools : List (Date × Date × String)} {cat : Categorized} {d : Date}
    (hnil : mapDate pubs schools cat d = []) :
    ∀ ds : List Date,
      (ds.foldr (fun d2 acc => mapDate pubs schools cat d2 ++ acc) []).filter
        (fun r => r.ts.1 = d) = []
  | [] => rfl
  | d2 :: t => by
    simp only [List.foldr_cons, List.filter_append]
    rw [filter_foldr_mapDate_nil hnil t, List.append_nil]
    by_cases hd : d2 = d
    · subst hd
      rw [hnil]
      rfl
    · apply List.filter_eq_nil_iff.mpr
      intro r hr
      have hts := mem_mapDate_ts hr
      simp [hts, hd]

/-- C5. The `normal` branch: a selection is made exactly when some source
Normal day shares the target's weekday; the selected day shares the weekday,
comes from the bucket, minimizes the day-of-year distance, and among the
minimizers (for a chronologically sorted bucket) is the earliest; and when no
source day shares the weekday, the target date contributes no output records
at all — a gap, not a synthesized day. -/
theorem normal_day_same_weekday_closest (bucket : List SrcEntry) (d : Date)
    (hsorted : bucket.Pairwise (fun a b => dateLtB a.1 b.1 = true)) :
    (normalSelect bucket (dayOfYear d) (weekday d) = none ↔
      ∀ e ∈ bucket, weekday e.1 ≠ weekday d)
    ∧ (∀ sd sc, normalSelect bucket (dayOfYear d) (weekday d) = some (sd, sc) →
        weekday sd = weekday d
        ∧ (∃ ds, (sd, sc, ds) ∈ bucket)
        ∧ (∀ e ∈ bucket, weekday e.1 = weekday d →
            ((dayOfYear sd : Int) - (dayOfYear d : Int)).natAbs ≤
              ((dayOfYear e.1 : Int) - (dayOfYear d : Int)).natAbs
            ∧ (((dayOfYear e.1 : Int) - (dayOfYear d : Int)).natAbs =
                ((dayOfYear sd : Int) - (dayOfYear d : Int)).natAbs →
                dateLeB sd e.1 = true)))
    ∧ (∀ pubs schools cat y, cat.normal = bucket →
        (categorize pubs schools d).1 = "normal" →
        (∀ e ∈ bucket, weekday e.1 ≠ weekday d) →
        (mapToFutureYear pubs schools cat y).filter (fun r => r.ts.1 = d) = []) := by
  refine ⟨?_, ?_, ?_⟩
  · unfold normalSelect
    rw [Option.map_eq_none']
    exact normalGo_none_iff (dayOfYear d) (weekday d) bucket
  · intro sd sc hsel
    unfold normalSelect at hsel
    rcases Option.map_eq_some'.mp hsel with ⟨b, hrun, hb⟩
    have hvac : ∀ b0, (none : Option (Date × Chunk × Nat)) = some b0 →
        weekday b0.1 = weekday d ∧
          b0.2.2 = ((dayOfYear b0.1 : Int) - (dayOfYear d : Int)).natAbs := by
      rintro b0 h; cases h
    obtain ⟨⟨hwb, hdb⟩, h2, h3, _⟩ :=
      normalGo_spec (dayOfYear d) (weekday d) bucket none b hvac hrun
    cases hb
    refine ⟨hwb, ?_, ?_⟩
    · rcases h2 with h2 | ⟨ds, hmem, _⟩
      · cases h2
      · exact ⟨ds, hmem⟩
    · intro e he hwe
      refine ⟨?_, ?_⟩
      · have := h3 e he hwe
        omega
      · intro htie
        have hvac2 : ∀ b0, (none : Option (Date × Chunk × Nat)) = some b0 →
            weekday b0.1 = weekday d ∧
              b0.2.2 = ((dayOfYear b0.1 : Int) - (dayOfYear d : Int)).natAbs ∧
              ∀ z ∈ bucket, dateLtB b0.1 z.1 = true := by
          rintro b0 h; cases h
        exact normalGo_tie (dayOfYear d) (weekday d) bucket none b hvac2 hsorted hrun
          e he hwe (by omega)
  · intro pubs schools cat y hcatn hcat hnone
    have hsel : normalSelect cat.normal (dayOfYear d) (weekday d) = none := by
      rw [hcatn]
      unfold normalSelect
      rw [Option.map_eq_none']
      exact (normalGo_none_iff (dayOfYear d) (weekday d) bucket).mpr hnone
    exact filter_foldr_mapDate_nil (mapDate_normal_gap hcat hsel) (datesOfYear y)

/-- A Normal-day corpus with same-weekday days only at day-of-year 40
(2026-02-09, a Monday) and day-of-year 80 (2028-03-20, a Monday). -/
def c5Bucket : List SrcEntry :=
  [(⟨2026, 2, 9⟩, [((⟨2026, 2, 9⟩, 0), 40)], "Normal day"),
   (⟨2028, 3, 20⟩, [((⟨2028, 3, 20⟩, 0), 80)], "Normal day")]

/-- Witness for C5: for the target Monday 2027-03-01 (day-of-year 60) the
day-of-year-40 source is selected (both candidates are 20 days away; the
earlier one wins the tie). -/
theorem normal_day_same_weekday_closest_witness :
    weekday (⟨2026, 2, 9⟩ : Date) = weekday ⟨2027, 3, 1⟩
    ∧ (∃ ds, ((⟨2026, 2, 9⟩ : Date), [(((⟨2026, 2, 9⟩ : Date), (0 : Nat)), (40 : Int))], ds) ∈ c5Bucket)
    ∧ normalSelect c5Bucket (dayOfYear ⟨2027, 3, 1⟩) (weekday ⟨2027, 3, 1⟩) =
        some (⟨2026, 2, 9⟩, [((⟨2026, 2, 9⟩, 0), 40)]) := by
  have h := (normal_day_same_weekday_closest c5Bucket ⟨2027, 3, 1⟩ (by decide)).2.1
    ⟨2026, 2, 9⟩ [((⟨2026, 2, 9⟩, 0), 40)] (by decide)
  exact ⟨h.1, h.2.1, by decide⟩

/-! ### The weekend branch (C6) -/

/-- The chunk of a Saturday recorded with ISO-week label `KW53`. -/
def c6ChunkKW53 : Chunk := [((⟨2027, 1, 2⟩, 0), 53)]

/-- A weekend corpus (source year 2027, chronological): 2027-01-02 carries ISO
week 53 (of ISO year 2026), 2027-02-06 carries ISO week 5. -/
def c6Bucket : List SrcEntry :=
  [(⟨2027, 1, 2⟩, c6ChunkKW53, "KW53"),
   (⟨2027, 2, 6⟩, [((⟨2027, 2, 6⟩, 0), 5)], "KW5")]

/-- A lone weekend day recorded as `KW7`. -/
def c6e7 : SrcEntry := (⟨2024, 2, 17⟩, [((⟨2024, 2, 17⟩, 0), 7)], "KW7")

/-- Counterexample to C6: matching is by substring, not by equal ISO week.
For target Saturday 2026-01-31 (ISO week 5) the corpus holds a `KW5` day,
yet the `KW53` day is selected (`KW5` is a substring of `KW53`); and a
fallback selection (week 5 over a `KW7`-only corpus) produces output
identical to a matched selection (week 7), so no fallback marking exists. -/
theorem weekend_iso_match_counterexample :
    isoWeek ⟨2026, 1, 31⟩ = 5
    ∧ weekday ⟨2026, 1, 31⟩ = 5
    ∧ isoWeek ⟨2027, 1, 2⟩ = 53
    ∧ (∃ e ∈ c6Bucket, e.2.2 = "KW" ++ toString (isoWeek ⟨2026, 1, 31⟩))
    ∧ weekendSelect c6Bucket (isoWeek ⟨2026, 1, 31⟩) =
        some (c6ChunkKW53, "Weekend KW53 from 2027-01-02")
    ∧ "KW53" ≠ "KW" ++ toString (isoWeek ⟨2026, 1, 31⟩)
    ∧ isSubstrOf "KW5" "KW7" = false
    ∧ weekendSelect [c6e7] 5 = weekendSelect [c6e7] 7 :=
  ⟨by decide, by decide, by decide, by decide, by decide, by decide, by decide, by decide⟩

theorem find?_append_of_none {α : Type} {p : α → Bool} {l2 : List α} :
    ∀ l1 : List α, (∀ x ∈ l1, p x = false) → (l1 ++ l2).find? p = l2.find? p
  | [], _ => rfl
  | x :: t, h => by
    have hx := h x (List.mem_cons_self x t)
    simp only [List.cons_append, List.find?_cons, hx]
    exact find?_append_of_none t (fun z hz => h z (List.mem_cons_of_mem x hz))

/-- C6 as amended. The weekend branch selects the first source day whose
recorded label contains `KW<iso_week>` as a substring (which may be a
different ISO week, e.g. `KW53` contains `KW5`); only when no label contains
that substring does it cycle to index `iso_week mod corpus_weekend_count`,
and the fallback record has the same format as a matched one (no marker). -/
theorem weekend_substring_first_match (bucket : List SrcEntry) (w : Nat) :
    (weekendSelect bucket w = none ↔ bucket = [])
    ∧ (∀ l1 e l2, bucket = l1 ++ e :: l2 →
        (∀ x ∈ l1, isSubstrOf ("KW" ++ toString w) x.2.2 = false) →
        isSubstrOf ("KW" ++ toString w) e.2.2 = true →
        weekendSelect bucket w =
          some (e.2.1, "Weekend " ++ e.2.2 ++ " from " ++ dateToString e.1))
    ∧ ((∀ x ∈ bucket, isSubstrOf ("KW" ++ toString w) x.2.2 = false) →
        bucket ≠ [] →
        weekendSelect bucket w =
          some ((bucket.getD (w % bucket.length) (⟨0, 0, 0⟩, [], "")).2.1,
            "Weekend " ++ (bucket.getD (w % bucket.length) (⟨0, 0, 0⟩, [], "")).2.2
              ++ " from " ++ dateToString (bucket.getD (w % bucket.length) (⟨0, 0, 0⟩, [], "")).1)) := by
  refine ⟨?_, ?_, ?_⟩
  · constructor
    · intro h
      rcases bucket with _ | ⟨e0, t⟩
      · rfl
      · exfalso
        unfold weekendSelect at h
        rcases hf : (e0 :: t).find? (fun e => isSubstrOf ("KW" ++ toString w) e.2.2) with _ | e <;>
          rw [hf] at h <;> exact Option.noConfusion h
    · rintro rfl
      rfl
  · intro l1 e l2 hb h1 he
    subst hb
    unfold weekendSelect
    have hf : ((l1 ++ e :: l2).find? (fun x => isSubstrOf ("KW" ++ toString w) x.2.2)) = some e := by
      rw [find?_append_of_none l1 h1]
      simp [List.find?_cons, he]
    rw [hf]
  · intro hall hne
    unfold weekendSelect
    have hf : (bucket.find? (fun x => isSubstrOf ("KW" ++ toString w) x.2.2)) = none :=
      List.find?_eq_none.mpr (fun x hx => by rw [hall x hx]; simp)
    rw [hf]
    rcases bucket with _ | ⟨e0, t⟩
    · exact absurd rfl hne
    · rfl

/-- Witness for C6 as amended: over `c6Bucket` and target ISO week 5 the
first substring match, the `KW53` day, is selected. -/
theorem weekend_substring_first_match_witness :
    weekendSelect c6Bucket 5 = some (c6ChunkKW53, "Weekend KW53 from 2027-01-02") :=
  (weekend_substring_first_match c6Bucket 5).2.1 []
    (⟨2027, 1, 2⟩, c6ChunkKW53, "KW53")
    [(⟨2027, 2, 6⟩, [((⟨2027, 2, 6⟩, 0), 5)], "KW5")]
    (by decide) (by intro x hx; cases hx) (by decide)

/-! ### The emitted record stream (C8) -/

/-- A school-holiday corpus day labelled as `categorize_days` labels 2024. -/
def c8Entry : SrcEntry :=
  (⟨2024, 4, 1⟩, [((⟨2024, 4, 1⟩, 0), 900)], "osterferien baden-württemberg 2024")

/-- Counterexample to C8's fallback-distinguishability: a matched selection
(target label equal to the source label) and a fallback selection (unrelated
target label) produce byte-identical selections and byte-identical record
streams — the output carries no `is_fallback` information. -/
theorem school_fallback_indistinguishable :
    schoolMatchB c8Entry.2.2 "osterferien baden-württemberg 2024" = true
    ∧ schoolMatchB c8Entry.2.2 "herbstferien baden-württemberg 2026" = false
    ∧ schoolSelect [c8Entry] "osterferien baden-württemberg 2024" =
        schoolSelect [c8Entry] "herbstferien baden-württemberg 2026"
    ∧ mapDate [] [(⟨2026, 3, 29⟩, ⟨2026, 4, 12⟩, "osterferien baden-württemberg 2024")]
        ⟨[], [c8Entry], [], []⟩ ⟨2026, 4, 1⟩ =
      mapDate [] [(⟨2026, 3, 29⟩, ⟨2026, 4, 12⟩, "herbstferien baden-württemberg 2026")]
        ⟨[], [c8Entry], [], []⟩ ⟨2026, 4, 1⟩ :=
  ⟨by decide, by decide, by decide, by set_option maxRecDepth 4000 in decide⟩

theorem stampDay_length (d : Date) (c : Chunk) (info : String) :
    (stampDay d c info).length = INTERVALS_PER_DAY := by
  simp [stampDay]

theorem stampDay_get (d : Date) (c : Chunk) (info : String) (i : Nat)
    (h : i < (stampDay d c info).length) :
    (stampDay d c info).get ⟨i, h⟩ =
      ⟨(d, i * INTERVAL_MINUTES), (c.getD (i % c.length) ((⟨0, 0, 0⟩, 0), 0)).2, info⟩ := by
  simp [stampDay]

/-- C8 as amended. When a profile is selected for a target date, exactly 96
records are emitted, 15 minutes apart starting at 00:00, the i-th carrying
sample `i mod len(chunk)` of the chosen chunk and one shared provenance
string naming the category and the chosen source day — but records are bare
`{timestamp, load, source}` triples: no `is_fallback` field exists, and (per
the counterexample) fallback selections are not distinguishable. -/
theorem mapDate_output_shape (pubs : List (String × Date))
    (schools : List (Date × Date × String)) (cat : Categorized) (d : Date) :
    mapDate pubs schools cat d = []
    ∨ ∃ chunk info,
        (mapDate pubs schools cat d).length = INTERVALS_PER_DAY
        ∧ (∀ i, (h : i < (mapDate pubs schools cat d).length) →
            (mapDate pubs schools cat d).get ⟨i, h⟩ =
              ⟨(d, i * INTERVAL_MINUTES),
               (chunk.getD (i % chunk.length) ((⟨0, 0, 0⟩, 0), 0)).2, info⟩)
        ∧ ((categorize pubs schools d).1 = "public_holiday" →
            ∃ e ∈ cat.publicHoliday, chunk = e.2.1 ∧
              (info = "Holiday: " ++ (categorize pubs schools d).2 ++ " from " ++ dateToString e.1
               ∨ info = "Holiday: " ++ e.2.2 ++ " from " ++ dateToString e.1))
        ∧ ((categorize pubs schools d).1 = "school_holiday" →
            ∃ e ∈ cat.schoolHoliday, chunk = e.2.1 ∧
              info = "School holiday: " ++ e.2.2 ++ " from " ++ dateToString e.1)
        ∧ ((categorize pubs schools d).1 = "weekend" →
            ∃ e ∈ cat.weekend, chunk = e.2.1 ∧
              info = "Weekend " ++ e.2.2 ++ " from " ++ dateToString e.1)
        ∧ ((categorize pubs schools d).1 = "normal" →
            ∃ e ∈ cat.normal, chunk = e.2.1 ∧
              info = "Normal day from " ++ dateToString e.1) := by
  by_cases hc1 : (categorize pubs schools d).1 = "public_holiday"
  · rcases hsel : publicSelect cat.publicHoliday (categorize pubs schools d).2 with _ | ci
    · left
      simp only [mapDate]
      rw [if_pos hc1, hsel]
    · right
      have hmap : mapDate pubs schools cat d = stampDay d ci.1 ci.2 := by
        simp only [mapDate]
        rw [if_pos hc1, hsel]
      refine ⟨ci.1, ci.2, by rw [hmap]; exact stampDay_length d ci.1 ci.2, ?_, ?_, ?_, ?_, ?_⟩
      · intro i h
        rw [List.get_of_eq hmap]
        exact stampDay_get d ci.1 ci.2 i _
      · intro _
        unfold publicSelect at hsel
        rcases hfind : cat.publicHoliday.find? (fun e => e.2.2 = (categorize pubs schools d).2)
            with _ | e
        · rw [hfind] at hsel
          rcases hbuck : cat.publicHoliday with _ | ⟨e0, t⟩
          · rw [hbuck] at hsel
            exact Option.noConfusion hsel
          · rw [hbuck] at hsel
            cases hsel
            exact ⟨e0, hbuck ▸ List.mem_cons_self e0 t, rfl, Or.inr rfl⟩
        · rw [hfind] at hsel
          cases hsel
          exact ⟨e, List.mem_of_find?_eq_some hfind, rfl, Or.inl rfl⟩
      · intro habs
        exact absurd (hc1.symm.trans habs) (by decide)
      · intro habs
        exact absurd (hc1.symm.trans habs) (by decide)
      · intro habs
        exact absurd (hc1.symm.trans habs) (by decide)
  · by_cases hc2 : (categorize pubs schools d).1 = "school_holiday"
    · rcases hsel : schoolSelect cat.schoolHoliday (categorize pubs schools d).2 with _ | ci
      · left
        simp only [mapDate]
        rw [if_neg hc1, if_pos hc2, hsel]
      · right
        have hmap : mapDate pubs schools cat d = stampDay d ci.1 ci.2 := by
          simp only [mapDate]
          rw [if_neg hc1, if_pos hc2, hsel]
        refine ⟨ci.1, ci.2, by rw [hmap]; exact stampDay_length d ci.1 ci.2, ?_, ?_, ?_, ?_, ?_⟩
        · intro i h
          rw [List.get_of_eq hmap]
          exact stampDay_get d ci.1 ci.2 i _
        · intro habs
          exact absurd habs hc1
        · intro _
          unfold schoolSelect at hsel
          rcases hfind : cat.schoolHoliday.find?
              (fun e => schoolMatchB e.2.2 (categorize pubs schools d).2) with _ | e
          · rw [hfind] at hsel
            rcases hbuck : cat.schoolHoliday with _ | ⟨e0, t⟩
            · rw [hbuck] at hsel
              exact Option.noConfusion hsel
            · rw [hbuck] at hsel
              cases hsel
              exact ⟨e0, hbuck ▸ List.mem_cons_self e0 t, rfl, rfl⟩
          · rw [hfind] at hsel
            cases hsel
            exact ⟨e, List.mem_of_find?_eq_some hfind, rfl, rfl⟩
        · intro habs
          exact absurd (hc2.symm.trans habs) (by decide)
        · intro habs
          exact absurd (hc2.symm.trans habs) (by decide)
    · by_cases hc3 : (categorize pubs schools d).1 = "weekend"
      · rcases hsel : weekendSelect cat.weekend (isoWeek d) with _ | ci
        · left
          simp only [mapDate]
          rw [if_neg hc1, if_neg hc2, if_pos hc3, hsel]
        · right
          have hmap : mapDate pubs schools cat d = stampDay d ci.1 ci.2 := by
            simp only [mapDate]
            rw [if_neg hc1, if_neg hc2, if_pos hc3, hsel]
          refine ⟨ci.1, ci.2, by rw [hmap]; exact stampDay_length d ci.1 ci.2, ?_, ?_, ?_, ?_, ?_⟩
          · intro i h
            rw [List.get_of_eq hmap]
            exact stampDay_get d ci.1 ci.2 i _
          · intro habs
            exact absurd habs hc1
          · intro habs
            exact absurd habs hc2
          · intro _
            unfold weekendSelect at hsel
            rcases hfind : cat.weekend.find?
                (fun e => isSubstrOf ("KW" ++ toString (isoWeek d)) e.2.2) with _ | e
            · rw [hfind] at hsel
              rcases hbuck : cat.weekend with _ | ⟨e0, t⟩
              · rw [hbuck] at hsel
                exact Option.noConfusion hsel
              · rw [hbuck] at hsel
                cases hsel
                refine ⟨(e0 :: t).getD (isoWeek d % (e0 :: t).length) (⟨0, 0, 0⟩, [], ""), ?_, rfl, rfl⟩
                have hlt : isoWeek d % (e0 :: t).length < (e0 :: t).length :=
                  Nat.mod_lt _ (by simp)
                simp only [List.getD_eq_getElem?_getD, List.getElem?_eq_getElem hlt,
                  Option.getD_some]
                exact List.getElem_mem hlt
            · rw [hfind] at hsel
              cases hsel
              exact ⟨e, List.mem_of_find?_eq_some hfind, rfl, rfl⟩
          · intro habs
            exact absurd (hc3.symm.trans habs) (by decide)
      · rcases hsel : normalSelect cat.normal (dayOfYear d) (weekday d) with _ | sc
        · left
          simp only [mapDate]
          rw [if_neg hc1, if_neg hc2, if_neg hc3, hsel]
        · right
          have hmap : mapDate pubs schools cat d =
              stampDay d sc.2 ("Normal day from " ++ dateToString sc.1) := by
            simp only [mapDate]
            rw [if_neg hc1, if_neg hc2, if_neg hc3, hsel]
          refine ⟨sc.2, "Normal day from " ++ dateToString sc.1,
            by rw [hmap]; exact stampDay_length d sc.2 _, ?_, ?_, ?_, ?_, ?_⟩
          · intro i h
            rw [List.get_of_eq hmap]
            exact stampDay_get d sc.2 _ i _
          · intro habs
            exact absurd habs hc1
          · intro habs
            exact absurd habs hc2
          · intro habs
            exact absurd habs hc3
          · intro _
            unfold normalSelect at hsel
            rcases Option.map_eq_some'.mp hsel with ⟨b, hrun, hb⟩
            have hvac : ∀ b0, (none : Option (Date × Chunk × Nat)) = some b0 →
                weekday b0.1 = weekday d ∧
                  b0.2.2 = ((dayOfYear b0.1 : Int) - (dayOfYear d : Int)).natAbs := by
              rintro b0 hx; cases hx
            obtain ⟨_, h2, _, _⟩ :=
              normalGo_spec (dayOfYear d) (weekday d) cat.normal none b hvac hrun
            rcases h2 with h2 | ⟨ds, hmem, _⟩
            · exact Option.noConfusion h2
            · cases hb
              exact ⟨(b.1, b.2.1, ds), hmem, rfl, rfl⟩

/-- Witness for C8 as amended: a selected school-holiday date yields exactly
96 records. -/
theorem mapDate_output_shape_witness :
    (mapDate [] [(⟨2026, 3, 29⟩, ⟨2026, 4, 12⟩, "osterferien baden-württemberg 2024")]
      ⟨[], [c8Entry], [], []⟩ ⟨2026, 4, 1⟩).length = INTERVALS_PER_DAY := by
  rcases mapDate_output_shape []
      [(⟨2026, 3, 29⟩, ⟨2026, 4, 12⟩, "osterferien baden-württemberg 2024")]
      ⟨[], [c8Entry], [], []⟩ ⟨2026, 4, 1⟩ with h | ⟨chunk, info, hlen, _⟩
  · exact absurd h (by set_option maxRecDepth 4000 in decide)
  · exact hlen

/-! ### Calendar arithmetic facts for the fallback school-holiday windows (C10) -/

/-- A date Python's `datetime.date` can represent (year ≥ 1, real month/day). -/
def validDate (d : Date) : Prop :=
  1 ≤ d.year ∧ 1 ≤ d.month ∧ d.month ≤ 12 ∧ 1 ≤ d.day ∧ d.day ≤ daysInMonth d.year d.month

theorem daysInMonth_pos (y m : Nat) : 1 ≤ daysInMonth y m := by
  unfold daysInMonth
  split <;> first | omega | (split_ifs <;> omega)

theorem daysBeforeMonth_succ (y m : Nat) (h1 : 1 ≤ m) (h2 : m ≤ 11) :
    daysBeforeMonth y (m + 1) = daysBeforeMonth y m + daysInMonth y m := by
  interval_cases m <;> cases hL : isLeap y <;> simp [daysBeforeMonth, daysInMonth, hL]

theorem dayOfYear_bounds (d : Date) (hv : validDate d) :
    1 ≤ dayOfYear d ∧ dayOfYear d ≤ 365 + (if isLeap d.year then 1 else 0) := by
  obtain ⟨h0, h1, h2, h3, h4⟩ := hv
  rcases d with ⟨y, m, dd⟩
  simp only at h0 h1 h2 h3 h4
  simp only [dayOfYear]
  interval_cases m <;>
    cases hL : isLeap y <;> simp [daysBeforeMonth, daysInMonth, hL] at h4 ⊢ <;> omega

theorem isLeap_iff (y : Nat) :
    isLeap y = true ↔ ((y % 4 = 0 ∧ ¬ y % 100 = 0) ∨ y % 400 = 0) := by
  simp [isLeap]

theorem daysBeforeYear_succ (y : Nat) (hy : 1 ≤ y) :
    daysBeforeYear (y + 1) = daysBeforeYear y + 365 + (if isLeap y then 1 else 0) := by
  unfold daysBeforeYear
  split_ifs with h
  · rw [isLeap_iff] at h
    omega
  · rw [isLeap_iff] at h
    omega

theorem daysBeforeYear_mono {y1 y2 : Nat} (h : y1 ≤ y2) :
    daysBeforeYear y1 ≤ daysBeforeYear y2 := by
  unfold daysBeforeYear
  omega

theorem toOrdinal_nextDay (d : Date) (hv : validDate d) :
    toOrdinal (nextDay d) = toOrdinal d + 1 ∧ validDate (nextDay d) := by
  obtain ⟨h0, h1, h2, h3, h4⟩ := hv
  rcases d with ⟨y, m, dd⟩
  simp only at h0 h1 h2 h3 h4
  unfold nextDay
  simp only
  split_ifs with hd hm
  · simp only at hd
    refine ⟨?_, h0, h1, h2, ?_, ?_⟩
    · simp only [toOrdinal, dayOfYear]
      omega
    · show 1 ≤ dd + 1
      omega
    · show dd + 1 ≤ daysInMonth y m
      omega
  · simp only at hd hm
    refine ⟨?_, h0, ?_, ?_, ?_, ?_⟩
    · simp only [toOrdinal, dayOfYear]
      rw [daysBeforeMonth_succ y m h1 (by omega)]
      omega
    · show 1 ≤ m + 1
      omega
    · show m + 1 ≤ 12
      omega
    · show (1 : Nat) ≤ 1
      omega
    · show (1 : Nat) ≤ daysInMonth y (m + 1)
      exact daysInMonth_pos y (m + 1)
  · simp only at hd hm
    have hm12 : m = 12 := by omega
    subst hm12
    have hdd : dd = 31 := by
      simp only [daysInMonth] at h4 hd
      omega
    subst hdd
    refine ⟨?_, ?_, ?_, ?_, ?_, ?_⟩
    · simp only [toOrdinal, dayOfYear, daysBeforeMonth, daysInMonth]
      rw [daysBeforeYear_succ y h0]
      cases hL : isLeap y <;> cases hL2 : isLeap (y + 1) <;> simp [hL, hL2]
    · show 1 ≤ y + 1
      omega
    · show (1 : Nat) ≤ 1
      omega
    · show (1 : Nat) ≤ 12
      omega
    · show (1 : Nat) ≤ 1
      omega
    · show (1 : Nat) ≤ daysInMonth (y + 1) 1
      exact daysInMonth_pos (y + 1) 1

theorem toOrdinal_addDays (d : Date) (hv : validDate d) (k : Nat) :
    toOrdinal (addDays d k) = toOrdinal d + k ∧ validDate (addDays d k) := by
  induction k with
  | zero => exact ⟨rfl, hv⟩
  | succ k ih =>
    have hstep := toOrdinal_nextDay (addDays d k) ih.2
    refine ⟨?_, hstep.2⟩
    rw [show addDays d (k + 1) = nextDay (addDays d k) from rfl, hstep.1, ih.1]
    omega

theorem toOrdinal_prevDay (d : Date) (hv : validDate d) (h2o : 2 ≤ toOrdinal d) :
    toOrdinal (prevDay d) = toOrdinal d - 1 ∧ validDate (prevDay d) := by
  obtain ⟨h0, h1, h2, h3, h4⟩ := hv
  rcases d with ⟨y, m, dd⟩
  simp only at h0 h1 h2 h3 h4
  unfold prevDay
  simp only
  split_ifs with hd hm
  · simp only at hd
    refine ⟨?_, h0, h1, h2, ?_, ?_⟩
    · simp only [toOrdinal, dayOfYear]
      omega
    · show 1 ≤ dd - 1
      omega
    · show dd - 1 ≤ daysInMonth y m
      omega
  · simp only at hd hm
    have hdd : dd = 1 := by omega
    subst hdd
    refine ⟨?_, h0, ?_, ?_, ?_, ?_⟩
    · simp only [toOrdinal, dayOfYear]
      rw [show m = (m - 1) + 1 by omega, daysBeforeMonth_succ y (m - 1) (by omega) (by omega)]
      simp only [Nat.add_sub_cancel]
      omega
    · show 1 ≤ m - 1
      omega
    · show m - 1 ≤ 12
      omega
    · show 1 ≤ daysInMonth y (m - 1)
      exact daysInMonth_pos y (m - 1)
    · show daysInMonth y (m - 1) ≤ daysInMonth y (m - 1)
      exact le_refl _
  · simp only at hd hm
    have hm1 : m = 1 := by omega
    have hdd : dd = 1 := by omega
    subst hm1
    subst hdd
    have hord : toOrdinal ⟨y, 1, 1⟩ = daysBeforeYear y + 1 := by
      simp [toOrdinal, dayOfYear, daysBeforeMonth]
    have hy2 : 2 ≤ y := by
      rw [hord] at h2o
      by_contra hylt
      have hy1 : y = 1 := by omega
      subst hy1
      simp [daysBeforeYear] at h2o
    have hs := daysBeforeYear_succ (y - 1) (by omega)
    rw [show (y - 1) + 1 = y by omega] at hs
    refine ⟨?_, ?_, ?_, ?_, ?_, ?_⟩
    · rw [hord]
      simp only [toOrdinal, dayOfYear, daysBeforeMonth, daysInMonth]
      cases hL : isLeap (y - 1) <;> simp [hL] at hs ⊢ <;> omega
    · show 1 ≤ y - 1
      omega
    · show (1 : Nat) ≤ 12
      omega
    · show (12 : Nat) ≤ 12
      omega
    · show (1 : Nat) ≤ 31
      omega
    · show (31 : Nat) ≤ daysInMonth (y - 1) 12
      simp [daysInMonth]

theorem toOrdinal_subDays (d : Date) (hv : validDate d) (k : Nat)
    (hk : k + 1 ≤ toOrdinal d) :
    toOrdinal (subDays d k) = toOrdinal d - k ∧ validDate (subDays d k) := by
  induction k with
  | zero => exact ⟨rfl, hv⟩
  | succ k ih =>
    have ih2 := ih (by omega)
    have hstep := toOrdinal_prevDay (subDays d k) ih2.2 (by omega)
    refine ⟨?_, hstep.2⟩
    rw [show subDays d (k + 1) = prevDay (subDays d k) from rfl, hstep.1, ih2.1]
    omega

theorem year_of_ordinal (e : Date) (hv : validDate e) (y : Nat)
    (hlo : daysBeforeYear y < toOrdinal e) (hhi : toOrdinal e ≤ daysBeforeYear (y + 1)) :
    e.year = y := by
  by_contra hne
  rcases Nat.lt_or_ge e.year y with hlt | hge
  · have hd := (dayOfYear_bounds e hv).2
    have hs := daysBeforeYear_succ e.year hv.1
    have hm := daysBeforeYear_mono (show e.year + 1 ≤ y by omega)
    simp only [toOrdinal] at hlo hhi
    cases hL : isLeap e.year <;> simp [hL] at hd hs <;> omega
  · have hy1 : y + 1 ≤ e.year := by omega
    have hm := daysBeforeYear_mono hy1
    have hd1 := (dayOfYear_bounds e hv).1
    simp only [toOrdinal] at hlo hhi
    omega

theorem ordinal_of_month1 (e : Date) (h1 : e.month = 1) :
    toOrdinal e = daysBeforeYear e.year + e.day := by
  simp [toOrdinal, dayOfYear, h1, daysBeforeMonth]

theorem gaussEaster_spec (Y : Nat) :
    (gaussEaster Y).year = Y
    ∧ ((gaussEaster Y).month = 3 ∧ 22 ≤ (gaussEaster Y).day ∧ (gaussEaster Y).day ≤ 31
       ∨ (gaussEaster Y).month = 4 ∧ 1 ≤ (gaussEaster Y).day ∧ (gaussEaster Y).day ≤ 26) := by
  refine ⟨rfl, ?_⟩
  unfold gaussEaster
  simp [Int.fmod_eq_emod, Int.fdiv_eq_ediv]
  omega

theorem gaussEaster_valid (y : Nat) (hy : 1 ≤ y) : validDate (gaussEaster y) := by
  obtain ⟨hYr, hcase⟩ := gaussEaster_spec y
  unfold validDate
  rcases hcase with ⟨h3, h22, h31⟩ | ⟨h4, h1, h26⟩
  · exact ⟨hYr ▸ hy, by omega, by omega, by omega, by rw [h3]; simp [daysInMonth]; omega⟩
  · exact ⟨hYr ▸ hy, by omega, by omega, by omega, by rw [h4]; simp [daysInMonth]; omega⟩

theorem gaussEaster_ordinal (y : Nat) :
    daysBeforeYear y + 81 ≤ toOrdinal (gaussEaster y)
    ∧ toOrdinal (gaussEaster y) ≤ daysBeforeYear y + 117 := by
  obtain ⟨hYr, hcase⟩ := gaussEaster_spec y
  rcases hcase with ⟨h3, h22, h31⟩ | ⟨h4, h1, h26⟩
  · simp only [toOrdinal, dayOfYear, hYr, h3]
    cases hL : isLeap y <;> simp [daysBeforeMonth, hL] <;> omega
  · simp only [toOrdinal, dayOfYear, hYr, h4]
    cases hL : isLeap y <;> simp [daysBeforeMonth, hL] <;> omega

theorem easter_addDays_facts (y k : Nat) (hy : 1 ≤ y) (hk : k ≤ 200) :
    (addDays (gaussEaster y) k).year = y ∧ 2 ≤ (addDays (gaussEaster y) k).month := by
  have hv := gaussEaster_valid y hy
  have hobnd := gaussEaster_ordinal y
  have had := toOrdinal_addDays (gaussEaster y) hv k
  have hsucc := daysBeforeYear_succ y hy
  have hyear : (addDays (gaussEaster y) k).year = y := by
    apply year_of_ordinal _ had.2 y
    · omega
    · cases hL : isLeap y <;> simp [hL] at hsucc <;> omega
  refine ⟨hyear, ?_⟩
  by_contra hml
  obtain ⟨_, hm1a, _, _, hd4⟩ := had.2
  have h1 : (addDays (gaussEaster y) k).month = 1 := by omega
  have hord1 := ordinal_of_month1 _ h1
  rw [hyear] at hord1
  rw [h1, hyear] at hd4
  rw [show daysInMonth y 1 = 31 from rfl] at hd4
  omega

theorem easter_subDays_facts (y : Nat) (hy : 1 ≤ y) :
    (subDays (gaussEaster y) 7).year = y ∧ 2 ≤ (subDays (gaussEaster y) 7).month := by
  have hv := gaussEaster_valid y hy
  have hobnd := gaussEaster_ordinal y
  have hsub := toOrdinal_subDays (gaussEaster y) hv 7 (le_trans (by omega) hobnd.1)
  have hsucc := daysBeforeYear_succ y hy
  have hyear : (subDays (gaussEaster y) 7).year = y := by
    apply year_of_ordinal _ hsub.2 y
    · omega
    · cases hL : isLeap y <;> simp [hL] at hsucc <;> omega
  refine ⟨hyear, ?_⟩
  by_contra hml
  obtain ⟨_, hm1a, _, _, hd4⟩ := hsub.2
  have h1 : (subDays (gaussEaster y) 7).month = 1 := by omega
  have hord1 := ordinal_of_month1 _ h1
  rw [hyear] at hord1
  rw [h1, hyear] at hd4
  rw [show daysInMonth y 1 = 31 from rfl] at hd4
  omega

/-- C10. For every year Y ≥ 1 (`datetime.date` requires year ≥ 1): the
fallback school-holiday list for Y carries its Christmas continuation as the
January 1–6 interval of Y+1, and only when Y < 2100; no interval of the list
covers January 1–6 of Y itself; hence with fallback school data `categorize`
never answers `school_holiday` on those days, whatever the public holidays. -/
theorem fallback_school_jan_spec (state : String) (y : Nat) (hy : 1 ≤ y) :
    (y < 2100 → ∃ nm, ((⟨y + 1, 1, 1⟩ : Date), (⟨y + 1, 1, 6⟩ : Date), nm) ∈
        fallbackSchoolHolidays state y)
    ∧ (2100 ≤ y → ∀ t ∈ fallbackSchoolHolidays state y, t.1.year = y ∧ t.2.1.year = y)
    ∧ (∀ t ∈ fallbackSchoolHolidays state y, ∀ dd, 1 ≤ dd → dd ≤ 6 →
        ¬((dateLeB t.1 ⟨y, 1, dd⟩ && dateLeB ⟨y, 1, dd⟩ t.2.1) = true))
    ∧ (∀ pubs dd, 1 ≤ dd → dd ≤ 6 →
        (categorize pubs (fallbackSchoolHolidays state y) ⟨y, 1, dd⟩).1 ≠ "school_holiday") := by
  have hOs := easter_subDays_facts y hy
  have hOe := easter_addDays_facts y 7 hy (by omega)
  have hPs := easter_addDays_facts y 49 hy (by omega)
  have hPe := easter_addDays_facts y 56 hy (by omega)
  have hcov : ∀ t ∈ fallbackSchoolHolidays state y, ∀ dd, 1 ≤ dd → dd ≤ 6 →
      ¬((dateLeB t.1 ⟨y, 1, dd⟩ && dateLeB ⟨y, 1, dd⟩ t.2.1) = true) := by
    intro t ht dd hd1 hd6
    rw [Bool.and_eq_true]
    rintro ⟨hle1, _⟩
    rw [dateLeB_iff] at hle1
    simp only [fallbackSchoolHolidays, List.mem_append, List.mem_cons, List.not_mem_nil,
      or_false] at ht
    rcases ht with (rfl | rfl | rfl | rfl | rfl | rfl) | ht
    · simp at hle1
    · simp at hle1
      omega
    · simp at hle1
      omega
    · by_cases hst : state = "BY" ∨ state = "BW" <;> simp [hst] at hle1
    · simp at hle1
    · simp at hle1
    · split_ifs at ht with h21
      · simp only [List.mem_singleton] at ht
        subst ht
        simp at hle1
      · simp at ht
  refine ⟨?_, ?_, hcov, ?_⟩
  · intro hlt
    refine ⟨normalizeHolidayName state "Weihnachtsferien" y, ?_⟩
    simp only [fallbackSchoolHolidays]
    rw [if_pos hlt]
    simp
  · intro h21 t ht
    simp only [fallbackSchoolHolidays, List.mem_append, List.mem_cons, List.not_mem_nil,
      or_false] at ht
    rcases ht with (rfl | rfl | rfl | rfl | rfl | rfl) | ht
    · exact ⟨rfl, rfl⟩
    · exact ⟨hOs.1, hOe.1⟩
    · exact ⟨hPs.1, hPe.1⟩
    · by_cases hst : state = "BY" ∨ state = "BW" <;> simp [hst]
    · exact ⟨rfl, rfl⟩
    · exact ⟨rfl, rfl⟩
    · split_ifs at ht with hlt
      · omega
      · simp at ht
  · intro pubs dd hd1 hd6
    have hsch : (fallbackSchoolHolidays state y).find?
        (fun si => dateLeB si.1 ⟨y, 1, dd⟩ && dateLeB ⟨y, 1, dd⟩ si.2.1) = none :=
      List.find?_eq_none.mpr (fun si hsi => by
        have hc := hcov si hsi dd hd1 hd6
        simpa using hc)
    rcases hfind : pubs.find? (fun p => (⟨y, 1, dd⟩ : Date) = p.2) with _ | p
    · simp only [categorize, hfind, hsch]
      split_ifs
      · exact (by decide : ("weekend" : String) ≠ "school_holiday")
      · exact (by decide : ("normal" : String) ≠ "school_holiday")
    · simp only [categorize, hfind]
      exact (by decide : ("public_holiday" : String) ≠ "school_holiday")

/-- Witness for C10 at year 2026, state BW: the Christmas continuation lies
in January 2027, and January 3, 2026 is not classified school_holiday. -/
theorem fallback_school_jan_spec_witness :
    (∃ nm, ((⟨2027, 1, 1⟩ : Date), (⟨2027, 1, 6⟩ : Date), nm) ∈
        fallbackSchoolHolidays "BW" 2026)
    ∧ (categorize (fallbackPublicHolidays 2026) (fallbackSchoolHolidays "BW" 2026)
        ⟨2026, 1, 3⟩).1 ≠ "school_holiday" :=
  ⟨(fallback_school_jan_spec "BW" 2026 (by decide)).1 (by decide),
   (fallback_school_jan_spec "BW" 2026 (by decide)).2.2.2 (fallbackPublicHolidays 2026) 3
     (by decide) (by decide)⟩
